import Mathlib

set_option maxRecDepth 2000

/-!
A shallow embedding of the phase-segmentation core of `load_107.py`
(HPD107Analysis): the single-file segmenter `split_csv`, the store-based
segmenter `split_db`, and the hold cleaner `temphold_filter`.

A loaded 107 log is modelled as a list of rows.  Timestamps are rational
numbers of seconds (pandas `total_seconds()`); all numeric channels are
rationals; the "50mK" channel is `Option ℚ` so that the missing-value
marker (NaN) written by the reg post-processing step is representable.
Python `IndexError` (out-of-range list/positional access) is modelled by
`Option`: a segmenter returns `none` where the Python code would raise.
-/

/-- One row of a reformatted 107 log.  The column order of `load_csv` /
`read_107db` is `Date/Time, Hours, 50mK, He-3, 3K, MagnetDiode, 50K,
Setpoint, Current, Voltage, Notes (, Filepath)`; positional column 0 is the
timestamp and positional column 8 is `Current`, as used by the source.  The
`filepath` field is only meaningful for store-based tables (`split_db`);
`split_csv` never reads it. -/
structure Row where
  time : ℚ
  hours : ℚ
  t50mK : Option ℚ
  he3 : ℚ
  t3K : ℚ
  magnetDiode : ℚ
  t50K : ℚ
  setpoint : ℚ
  current : ℚ
  voltage : ℚ
  notes : String
  filepath : String
  deriving DecidableEq

instance : Inhabited Row :=
  ⟨⟨0, 0, none, 0, 0, 0, 0, 0, 0, 0, "", ""⟩⟩

abbrev Table := List Row

/-- Tests `isPrefOf p l`: the char list `p` is a prefix of `l`. -/
def isPrefOf : List Char → List Char → Bool
  | [], _ => true
  | _ :: _, [] => false
  | a :: as, b :: bs => a == b && isPrefOf as bs

def containsSubAux (pat : List Char) : List Char → Bool
  | [] => isPrefOf pat []
  | b :: bs => isPrefOf pat (b :: bs) || containsSubAux pat bs

/-- Python `pat in s` for strings: substring containment. -/
def containsSub (pat s : String) : Bool :=
  containsSubAux pat.data s.data

/-- Python `'Start Mag Cycle' in x` (regen-start marker). -/
def isRegenMark (x : String) : Bool :=
  containsSub "Start Mag Cycle" x

/-- Python `'Mag Cycle complete' in x or 'Mag Cycle Canceled' in x` (reg-start marker). -/
def isRegMark (x : String) : Bool :=
  containsSub "Mag Cycle complete" x || containsSub "Mag Cycle Canceled" x

/-- Any of the three markers of line 73 of `load_107.py`. -/
def isMark (x : String) : Bool :=
  isRegenMark x || isRegMark x

/-- Python slice `t[s:e]` by position (`DataFrame.iloc[s:e]`). -/
def pySlice (t : Table) (s e : Nat) : Table :=
  (t.drop s).take (e - s)

/-- Reads `log.iloc[i, 0]`: the timestamp at position `i` (callers only use it in
range; the default value is never reached there). -/
def timeAt (t : Table) (i : Nat) : ℚ :=
  (t.getD i default).time

/-- Computes `(tbl.iloc[-1,0] - tbl.iloc[0,0]).total_seconds()/3600`: elapsed hours
between a table's own first and last rows (junk `0` on the empty table,
where the Python expression is never evaluated thanks to short-circuit). -/
def durHours (t : Table) : ℚ :=
  match t with
  | [] => 0
  | r0 :: _ => ((t.getLastD default).time - r0.time) / 3600

/-- Performs `tbl["Hours"] = (tbl['Date/Time'] - tbl.iloc[0,0]).dt.total_seconds()/3600`:
rebase the Hours channel to the table's own first row.  On an empty table the
Python `.iloc[0,0]` raises `IndexError`, modelled by `none`. -/
def rebaseHours (t : Table) : Option Table :=
  match t with
  | [] => none
  | r0 :: _ => some (t.map fun r => { r with hours := (r.time - r0.time) / 3600 })

/-- Performs `tbl['50mK'].replace(0, np.nan, inplace=True)`: every 50mK reading equal
to exactly 0 becomes the missing marker; everything else is untouched. -/
def replace50 (t : Table) : Table :=
  t.map fun r => if r.t50mK = some 0 then { r with t50mK := none } else r

/-- pandas `Series.between(lo, hi)` (inclusive; false on the missing marker). -/
def betweenQ (v : Option ℚ) (lo hi : ℚ) : Bool :=
  match v with
  | none => false
  | some x => decide (lo ≤ x) && decide (x ≤ hi)

/-- Python `list.index(s)`: position of the first occurrence (`none` models
the `ValueError` on a missing element). -/
def listIndex (s : Nat) : List Nat → Option Nat
  | [] => none
  | a :: rest => if a = s then some 0 else (listIndex s rest).map (· + 1)

/-- Evaluates `cuts[cuts.index(s) + 1]`: the cut point following the first occurrence
of `s` in the cut list (`none` models the `IndexError` when `s` is the last
entry). -/
def nextCut (cuts : List Nat) (s : Nat) : Option Nat :=
  (listIndex s cuts).bind fun i => cuts.get? (i + 1)

/-- Evaluates `cuts[cuts.index(s) - 1]` with Python semantics: when `s` is the first
entry the index `-1` wraps around to the *last* element. -/
def prevCutPy (cuts : List Nat) (s : Nat) : Option Nat :=
  (listIndex s cuts).bind fun i =>
    if i = 0 then cuts.getLast? else cuts.get? (i - 1)

/-- Line 73-75 of `split_csv`: marker mask with positions 0 and -1 forced. -/
def markForced (t : Table) (i : Nat) : Bool :=
  i == 0 || i == t.length - 1 || isMark (t.getD i default).notes

/-- The list `all_indicies` of `split_csv`: positions whose (forced) mask is true. -/
def allIndicies (t : Table) : List Nat :=
  (List.range t.length).filter (markForced t)

/-- The list `regen_indicies`: positions whose note contains `'Start Mag Cycle'`
(identical computation in `split_csv` and `split_db`). -/
def regenIndicies (t : Table) : List Nat :=
  (List.range t.length).filter fun i => isRegenMark (t.getD i default).notes

/-- The list `reg_indicies`: positions whose note contains `'Mag Cycle complete'` or
`'Mag Cycle Canceled'` (identical in `split_csv` and `split_db`). -/
def regIndicies (t : Table) : List Nat :=
  (List.range t.length).filter fun i => isRegMark (t.getD i default).notes

/-- Computes `np.where(filepaths[:-1] != filepaths[1:])[0]` of `split_db`: positions
`i` such that rows `i` and `i+1` come from different source files. -/
def logIndicies (t : Table) : List Nat :=
  (List.range (t.length - 1)).filter fun i =>
    (t.getD i default).filepath != (t.getD (i + 1) default).filepath

def insertSorted (a : Nat) : List Nat → List Nat
  | [] => [a]
  | b :: rest => if a ≤ b then a :: b :: rest else b :: insertSorted a rest

/-- Python `list.sort()` on naturals (structural insertion sort; equal output). -/
def sortNat : List Nat → List Nat
  | [] => []
  | a :: rest => insertSorted a (sortNat rest)

/-- The list `indicies` of `split_db`: source-change cuts, regen cuts, reg cuts, plus
`0` and `len(df)`, sorted. -/
def allIndiciesDb (t : Table) : List Nat :=
  sortNat (logIndicies t ++ regenIndicies t ++ regIndicies t ++ [0, t.length])

/-- Regen acceptance of `split_csv` (lines 99-100): some `Current` in the
candidate slice `[s, e)` exceeds 15, and the elapsed hours between row `s`
and row `e` — the row *at* the next cut point, one past the slice — lie
strictly between 3 and 5. -/
def regenAcceptCsv (log : Table) (s e : Nat) : Bool :=
  (pySlice log s e).any (fun r => decide (15 < r.current)) &&
  (decide (3 < (timeAt log e - timeAt log s) / 3600) &&
   decide ((timeAt log e - timeAt log s) / 3600 < 5))

/-- Regen acceptance of `split_db` (line 265): some `Current` in the slice
exceeds 15, and the elapsed hours between the slice's own first and last
rows lie strictly between 3 and 5. -/
def regenAcceptDb (log : Table) (s e : Nat) : Bool :=
  (pySlice log s e).any (fun r => decide (15 < r.current)) &&
  (decide (3 < durHours (pySlice log s e)) &&
   decide (durHours (pySlice log s e) < 5))

/-- Reg acceptance (lines 118-119 and 280, textually identical in both
segmenters): not every `Current` in the slice is below 0.1 and no `Current`
in the slice exceeds 2. -/
def regAccept (log : Table) (s e : Nat) : Bool :=
  !((pySlice log s e).all fun r => decide (r.current < 0.1)) &&
  !((pySlice log s e).any fun r => decide (2 < r.current))

/-- Cooldown/warmup acceptance of `split_db` (lines 235/243/246/251): the
50mK channel takes a value in [284, 286] and a value in [3.5, 4.5]. -/
def coolwarmAccept (t : Table) : Bool :=
  (t.any fun r => betweenQ r.t50mK 284 286) &&
  (t.any fun r => betweenQ r.t50mK 3.5 4.5)

/-- The regen/reg extraction loops shared by both segmenters: for each start
index `s`, look up the next cut point (raising — `none` — when there is
none), and if the acceptance predicate holds on the candidate slice, apply
the per-phase post-processing (`Hours` rebase, and for regs the 50mK
replacement) and collect the phase in chronological order. -/
def buildPhases (log : Table) (cuts : List Nat)
    (accept : Table → Nat → Nat → Bool) (post : Table → Option Table) :
    List Nat → Option (List Table)
  | [] => some []
  | s :: rest =>
    match nextCut cuts s with
    | none => none
    | some e =>
      match buildPhases log cuts accept post rest with
      | none => none
      | some tail =>
        if accept log s e then
          match post (pySlice log s e) with
          | none => none
          | some ph => some (ph :: tail)
        else
          some tail

/-- The hold cleaner `temphold_filter` (lines 149-155): for each reg phase keep only the rows
with `Current > 0.085`, reset the index and rebase `Hours` to the new first
row.  When the filter removes every row, the rebase indexes row 0 of an
empty frame, an `IndexError` (`none`). -/
def temphold_filter : List Table → Option (List Table)
  | [] => some []
  | reg :: rest =>
    match rebaseHours (reg.filter fun r => decide (0.085 < r.current)) with
    | none => none
    | some cleaned =>
      match temphold_filter rest with
      | none => none
      | some tail => some (cleaned :: tail)

/-- The four collections returned by `split_csv`: the single `cooldown` and
`warmup` entries of `coolwarmfiles`, and the chronologically numbered
`regen1, regen2, ...` and `reg1, reg2, ...` entries as lists. -/
structure CsvSplit where
  cooldown : Table
  warmup : Table
  regens : List Table
  regs : List Table
  deriving DecidableEq

instance : Inhabited CsvSplit := ⟨⟨[], [], [], []⟩⟩

/-- Lines 82-86 of `split_csv`: `cooldown = log.iloc[allCuts[0]:allCuts[1]]`,
`warmup = log.iloc[allCuts[-2]:allCuts[-1]]`, each with `Hours` rebased to
its own first row. -/
def csvCoolWarm (log : Table) : Option (Table × Table) :=
  let cuts := allIndicies log
  match cuts.get? 1 with
  | none => none
  | some c1 =>
    match rebaseHours (pySlice log (cuts.headD 0) c1),
          rebaseHours (pySlice log (cuts.getD (cuts.length - 2) 0)
                                 (cuts.getD (cuts.length - 1) 0)) with
    | some cd, some wu => some (cd, wu)
    | _, _ => none

/-- The regen loop of `split_csv` (lines 97-105). -/
def csvRegens (log : Table) : Option (List Table) :=
  buildPhases log (allIndicies log) regenAcceptCsv rebaseHours (regenIndicies log)

/-- The reg loop of `split_csv` (lines 116-126): rebase `Hours`, then
replace exact-zero 50mK readings with the missing marker. -/
def csvRegsRaw (log : Table) : Option (List Table) :=
  buildPhases log (allIndicies log) regAccept
    (fun t => (rebaseHours t).map replace50) (regIndicies log)

/-- The segmenter `split_csv`.  On the empty table, `all_booleans[0] = True` raises; on a
one-row table, `all_indicies[1]` raises; both are `none`. -/
def splitCsv (log : Table) : Option CsvSplit :=
  match log with
  | [] => none
  | _ :: _ =>
    match csvCoolWarm log with
    | none => none
    | some (cd, wu) =>
      match csvRegens log with
      | none => none
      | some regens =>
        match (csvRegsRaw log).bind temphold_filter with
        | none => none
        | some regs => some ⟨cd, wu, regens, regs⟩

/-- The four collections returned by `split_db`, in dictionary insertion
order: `cooldown1, ...`, `warmup1, ...`, `regen1, ...`, `reg1, ...`. -/
structure DbSplit where
  cools : List Table
  warms : List Table
  regens : List Table
  regs : List Table
  deriving DecidableEq

instance : Inhabited DbSplit := ⟨⟨[], [], [], []⟩⟩

/-- The loop of lines 240-248 of `split_db`: for each source-change index
`L`, the cooldown candidate `df.iloc[L+1 : indicies[indicies.index(L)+1]]`
and the warmup candidate `df.iloc[indicies[indicies.index(L)-1] : L]`,
accepted by the 50mK temperature-range test.  Candidates are *not* rebased. -/
def coolwarmLoop (df : Table) (cuts : List Nat) :
    List Nat → Option (List Table × List Table)
  | [] => some ([], [])
  | l :: rest =>
    match nextCut cuts l, prevCutPy cuts l with
    | some eNext, some pPrev =>
      match coolwarmLoop df cuts rest with
      | none => none
      | some (cs, ws) =>
        let coollog := pySlice df (l + 1) eNext
        let warmlog := pySlice df pPrev l
        some ((if coolwarmAccept coollog then [coollog] else []) ++ cs,
              (if coolwarmAccept warmlog then [warmlog] else []) ++ ws)
    | _, _ => none

/-- Lines 223-253 of `split_db`: the first and last inter-cut segments plus
the segments around every source-change index, kept when the 50mK test
holds.  `Hours` is *not* rebased for these phases. -/
def dbCoolWarm (df : Table) : Option (List Table × List Table) :=
  let cuts := allIndiciesDb df
  let firstlog := pySlice df (cuts.headD 0) (cuts.getD 1 0)
  let lastlog := pySlice df (cuts.getD (cuts.length - 2) 0)
                          (cuts.getD (cuts.length - 1) 0)
  (coolwarmLoop df cuts (logIndicies df)).map fun p =>
    ((if coolwarmAccept firstlog then [firstlog] else []) ++ p.1,
     p.2 ++ (if coolwarmAccept lastlog then [lastlog] else []))

/-- The regen loop of `split_db` (lines 262-270). -/
def dbRegens (df : Table) : Option (List Table) :=
  buildPhases df (allIndiciesDb df) regenAcceptDb rebaseHours (regenIndicies df)

/-- The reg loop of `split_db` (lines 277-287). -/
def dbRegsRaw (df : Table) : Option (List Table) :=
  buildPhases df (allIndiciesDb df) regAccept
    (fun t => (rebaseHours t).map replace50) (regIndicies df)

/-- The segmenter `split_db`. -/
def splitDb (df : Table) : Option DbSplit :=
  match dbCoolWarm df with
  | none => none
  | some (cs, ws) =>
    match dbRegens df with
    | none => none
    | some regens =>
      match (dbRegsRaw df).bind temphold_filter with
      | none => none
      | some regs => some ⟨cs, ws, regens, regs⟩

/-- Builds a row with the channels the segmenters never read set to zero. -/
def mkRow (time hours : ℚ) (t50 : Option ℚ) (current : ℚ)
    (notes fp : String) : Row :=
  { time := time, hours := hours, t50mK := t50, he3 := 0, t3K := 0,
    magnetDiode := 0, t50K := 0, setpoint := 0, current := current,
    voltage := 0, notes := notes, filepath := fp }

def c1dbTable : Table :=
  [ mkRow 0 5 (some 285) 0 "" "a",
    mkRow 3600 5 (some 4) 0 "" "a",
    mkRow 7200 5 (some 4) 0 "" "a" ]

def c2csvTable : Table :=
  [ mkRow 0 0 none 0 "" "",
    mkRow 3600 0 none 20 "Start Mag Cycle" "",
    mkRow 18000 0 none 20 "" "",
    mkRow 25200 0 none 0.2 "Mag Cycle complete" "",
    mkRow 26000 0 none 0.2 "" "" ]

def c5dbTable : Table :=
  [ mkRow 0 0 none 0.2 "Mag Cycle complete" "a",
    mkRow 3600 0 none 1.5 "" "a",
    mkRow 7200 0 none 0.3 "" "a" ]

def c8Table : Table :=
  [ mkRow 0 0 none 0 "" "",
    mkRow 3600 0 none 0.5 "Start Mag Cycle" "",
    mkRow 7200 0 none 0.5 "" "",
    mkRow 10800 0 none 0.5 "Mag Cycle complete" "",
    mkRow 14400 0 none 0.5 "" "" ]

def c3lowRow : Row := mkRow 0 2 none 0.05 "" ""

def wCsvTable : Table := [mkRow 0 3 none 1 "" "", mkRow 3600 3 none 1 "" ""]

def wDbTable : Table := [mkRow 0 3 none 1 "" "a", mkRow 3600 3 none 1 "" "a"]

def w6Reg : Table := [mkRow 0 7 none 1 "" ""]

def w7Table : Table :=
  [ mkRow 0 0 (some 5) 0 "" "",
    mkRow 3600 0 (some 0) 0.5 "Mag Cycle complete" "",
    mkRow 7200 0 (some 2) 0.5 "" "" ]

/-- The value of `splitCsv w7Table`, written out: one-row cooldown and
warmup, no regens, and a single reg phase whose 50mK reading 0 has been
replaced by the missing marker. -/
def w7Result : CsvSplit :=
  ⟨[mkRow 0 0 (some 5) 0 "" ""],
   [mkRow 3600 0 (some 0) 0.5 "Mag Cycle complete" ""],
   [],
   [[mkRow 3600 0 none 0.5 "Mag Cycle complete" ""]]⟩

def w9Table : Table :=
  [mkRow 0 0 none 0 "" "", mkRow 3600 0 none 0 "Start Mag Cycle" ""]

/-- C1 (counterexample): `split_db` accepts `c1dbTable`'s opening segment as
`cooldown1` but never rebases the `Hours` channel of cooldown/warmup phases,
so the accepted cooldown's first row keeps its source value 5 ≠ 0. -/
theorem C1_counterexample :
    ((splitDb c1dbTable).map fun r => r.cools.map fun t => (t.headD default).hours)
      = some [5] ∧ (5 : ℚ) ≠ 0 := by
  constructor
  · with_unfolding_all decide
  · with_unfolding_all decide

/-- C2 (counterexample): in `c2csvTable` the regen candidate starts at row 1,
the next cut point is 3, the slice `[1, 3)` has a `Current` above 15 and its
own first-to-last elapsed time is 4 hours (strictly between 3 and 5), yet
`split_csv` accepts no regen, because it measures the duration to row 3 (6
hours), one row past the slice. -/
theorem C2_counterexample :
    (splitCsv c2csvTable).map CsvSplit.regens = some [] ∧
    nextCut (allIndicies c2csvTable) 1 = some 3 ∧
    (pySlice c2csvTable 1 3).any (fun r => decide (15 < r.current)) = true ∧
    3 < durHours (pySlice c2csvTable 1 3) ∧
    durHours (pySlice c2csvTable 1 3) < 5 := by
  refine ⟨by with_unfolding_all decide, by with_unfolding_all decide,
    by with_unfolding_all decide, by with_unfolding_all decide, by with_unfolding_all decide⟩

/-- C3 (counterexample): a reg collection holding one phase whose single row
has `Current = 0.05` is entirely removed by the hold filter, and
`temphold_filter` then fails (the `Hours` rebase indexes row 0 of the empty
frame) instead of returning the empty phase. -/
theorem C3_counterexample :
    temphold_filter [[c3lowRow]] = none ∧
    ([c3lowRow].filter fun r => decide (0.085 < r.current)) = [] := by
  with_unfolding_all decide

/-- C5 (counterexample): `c5dbTable` starts with a `'Mag Cycle complete'`
row; Current over the whole table stays in (0.1, 2], and the next cut point
strictly after 0 is the table end, so the claim demands an accepted reg —
but `split_db` duplicates index 0 in its merged cut list, resolves the end
to 0 itself, and rejects the empty slice: no reg is produced. -/
theorem C5_counterexample :
    (splitDb c5dbTable).map DbSplit.regs = some [] ∧
    isRegMark ((c5dbTable.getD 0 default).notes) = true ∧
    ((pySlice c5dbTable 0 c5dbTable.length).all fun r => decide (r.current < 0.1))
      = false ∧
    ((pySlice c5dbTable 0 c5dbTable.length).any fun r => decide (2 < r.current))
      = false := by
  refine ⟨by with_unfolding_all decide, by with_unfolding_all decide,
    by with_unfolding_all decide, by with_unfolding_all decide⟩

/-- C8 (counterexample): `c8Table` has exactly two marker-derived cut points
(rows 1 and 3) and five rows; the slice from the last marker cut to the end
of the table has two rows, but the warmup returned by `split_csv` has only
one: `log.iloc[allCuts[-2]:allCuts[-1]]` stops before the forced final cut
at index 4, so the table's final row is excluded. -/
theorem C8_counterexample :
    ((splitCsv c8Table).map fun r => r.warmup.length) = some 1 ∧
    allIndicies c8Table = [0, 1, 3, 4] ∧
    (pySlice c8Table 3 c8Table.length).length = 2 := by
  refine ⟨by with_unfolding_all decide, by with_unfolding_all decide,
    by with_unfolding_all decide⟩

/-! ### Structural lemmas about the embedded operations -/

theorem rebaseHours_cons (r0 : Row) (rest : Table) :
    rebaseHours (r0 :: rest) =
      some ((r0 :: rest).map fun r => { r with hours := (r.time - r0.time) / 3600 }) :=
  rfl

theorem rebaseHours_isSome {t : Table} (h : t ≠ []) :
    ∃ t', rebaseHours t = some t' := by
  cases t with
  | nil => exact absurd rfl h
  | cons r0 rest => exact ⟨_, rfl⟩

theorem rebaseHours_head_hours {t t' : Table} (h : rebaseHours t = some t') :
    (t'.headD default).hours = 0 := by
  cases t with
  | nil => simp [rebaseHours] at h
  | cons r0 rest =>
    rw [rebaseHours_cons, Option.some.injEq] at h
    subst h
    simp

theorem rebaseHours_length {t t' : Table} (h : rebaseHours t = some t') :
    t'.length = t.length := by
  cases t with
  | nil => simp [rebaseHours] at h
  | cons r0 rest =>
    rw [rebaseHours_cons, Option.some.injEq] at h
    subst h
    simp

theorem rebaseHours_mem {t t' : Table} (h : rebaseHours t = some t') {r : Row}
    (hr : r ∈ t') :
    ∃ r0 ∈ t, r.time = r0.time ∧ r.current = r0.current ∧ r.t50mK = r0.t50mK := by
  cases t with
  | nil => simp [rebaseHours] at h
  | cons r0 rest =>
    rw [rebaseHours_cons, Option.some.injEq] at h
    subst h
    rcases List.mem_map.mp hr with ⟨x, hx, rfl⟩
    exact ⟨x, hx, rfl, rfl, rfl⟩

theorem rebaseHours_mem_rev {t t' : Table} (h : rebaseHours t = some t') {r0 : Row}
    (hr : r0 ∈ t) :
    ∃ r ∈ t', r.time = r0.time ∧ r.current = r0.current ∧ r.t50mK = r0.t50mK := by
  cases t with
  | nil => simp [rebaseHours] at h
  | cons a rest =>
    rw [rebaseHours_cons, Option.some.injEq] at h
    subst h
    exact ⟨_, List.mem_map_of_mem _ hr, rfl, rfl, rfl⟩

theorem replace50_mem_no_zero {t : Table} {r : Row} (hr : r ∈ replace50 t) :
    r.t50mK ≠ some 0 := by
  rcases List.mem_map.mp hr with ⟨r0, _, rfl⟩
  by_cases h : r0.t50mK = some 0 <;> simp [h]

theorem replace50_mem_rev {t : Table} {r0 : Row} (hr : r0 ∈ t) :
    ∃ r ∈ replace50 t, r.current = r0.current := by
  refine ⟨_, List.mem_map_of_mem _ hr, ?_⟩
  by_cases h : r0.t50mK = some 0 <;> simp [h]

theorem buildPhases_mem {log : Table} {cuts : List Nat}
    {accept : Table → Nat → Nat → Bool} {post : Table → Option Table}
    {starts : List Nat} {phs : List Table}
    (h : buildPhases log cuts accept post starts = some phs) {ph : Table}
    (hp : ph ∈ phs) :
    ∃ s e, s ∈ starts ∧ nextCut cuts s = some e ∧ accept log s e = true ∧
      post (pySlice log s e) = some ph := by
  induction starts generalizing phs with
  | nil =>
    simp only [buildPhases, Option.some.injEq] at h
    subst h
    cases hp
  | cons s rest ih =>
    simp only [buildPhases] at h
    cases hnc : nextCut cuts s with
    | none => simp [hnc] at h
    | some e =>
      simp only [hnc] at h
      cases hrec : buildPhases log cuts accept post rest with
      | none => simp [hrec] at h
      | some tail =>
        simp only [hrec] at h
        by_cases hacc : accept log s e = true
        · rw [if_pos hacc] at h
          cases hpost : post (pySlice log s e) with
          | none => simp [hpost] at h
          | some ph0 =>
            simp only [hpost, Option.some.injEq] at h
            subst h
            rcases List.mem_cons.mp hp with rfl | hp2
            · exact ⟨s, e, List.mem_cons_self s rest, hnc, hacc, hpost⟩
            · rcases ih hrec hp2 with ⟨s2, e2, hs2, hnc2, hacc2, hpost2⟩
              exact ⟨s2, e2, List.mem_cons_of_mem s hs2, hnc2, hacc2, hpost2⟩
        · rw [if_neg hacc, Option.some.injEq] at h
          subst h
          rcases ih hrec hp with ⟨s2, e2, hs2, hnc2, hacc2, hpost2⟩
          exact ⟨s2, e2, List.mem_cons_of_mem s hs2, hnc2, hacc2, hpost2⟩

theorem buildPhases_none {log : Table} {cuts : List Nat}
    {accept : Table → Nat → Nat → Bool} {post : Table → Option Table}
    {starts : List Nat} {s : Nat}
    (hs : s ∈ starts) (hn : nextCut cuts s = none) :
    buildPhases log cuts accept post starts = none := by
  induction starts with
  | nil => cases hs
  | cons a rest ih =>
    rcases List.mem_cons.mp hs with rfl | hs2
    · simp only [buildPhases, hn]
    · simp only [buildPhases]
      cases hnc : nextCut cuts a with
      | none => rfl
      | some e => rw [ih hs2]

theorem temphold_mem {regs out : List Table} (h : temphold_filter regs = some out)
    {t : Table} (ht : t ∈ out) :
    ∃ reg ∈ regs,
      rebaseHours (reg.filter fun r => decide (0.085 < r.current)) = some t := by
  induction regs generalizing out with
  | nil =>
    simp only [temphold_filter, Option.some.injEq] at h
    subst h
    cases ht
  | cons a rest ih =>
    simp only [temphold_filter] at h
    cases h1 : rebaseHours (a.filter fun r => decide (0.085 < r.current)) with
    | none => rw [h1] at h; cases h
    | some cleaned =>
      rw [h1] at h
      cases h2 : temphold_filter rest with
      | none => rw [h2] at h; cases h
      | some tail =>
        rw [h2, Option.some.injEq] at h
        subst h
        rcases List.mem_cons.mp ht with rfl | ht2
        · exact ⟨a, List.mem_cons_self a rest, h1⟩
        · rcases ih h2 ht2 with ⟨reg, hreg, hr⟩
          exact ⟨reg, List.mem_cons_of_mem a hreg, hr⟩

theorem temphold_none {regs : List Table} {reg : Table} (hm : reg ∈ regs)
    (hf : reg.filter (fun r => decide (0.085 < r.current)) = []) :
    temphold_filter regs = none := by
  induction regs with
  | nil => cases hm
  | cons a rest ih =>
    rcases List.mem_cons.mp hm with rfl | h2
    · simp only [temphold_filter, hf, rebaseHours]
    · simp only [temphold_filter]
      cases h1 : rebaseHours (a.filter fun r => decide (0.085 < r.current)) with
      | none => rfl
      | some cleaned => rw [ih h2]

theorem splitCsv_inv {log : Table} {rc : CsvSplit} (h : splitCsv log = some rc) :
    csvCoolWarm log = some (rc.cooldown, rc.warmup) ∧
    csvRegens log = some rc.regens ∧
    ∃ raw, csvRegsRaw log = some raw ∧ temphold_filter raw = some rc.regs := by
  cases log with
  | nil => cases h
  | cons a as =>
    unfold splitCsv at h
    cases hcw : csvCoolWarm (a :: as) with
    | none => simp [hcw] at h
    | some p =>
      obtain ⟨cd, wu⟩ := p
      simp only [hcw] at h
      cases hregens : csvRegens (a :: as) with
      | none => simp [hregens] at h
      | some regens =>
        simp only [hregens] at h
        cases hregs : (csvRegsRaw (a :: as)).bind temphold_filter with
        | none => simp [hregs] at h
        | some regs =>
          simp only [hregs, Option.some.injEq] at h
          subst h
          rcases Option.bind_eq_some.mp hregs with ⟨raw, hraw, hth⟩
          exact ⟨rfl, rfl, raw, hraw, hth⟩

theorem splitDb_inv {df : Table} {rd : DbSplit} (h : splitDb df = some rd) :
    dbCoolWarm df = some (rd.cools, rd.warms) ∧
    dbRegens df = some rd.regens ∧
    ∃ raw, dbRegsRaw df = some raw ∧ temphold_filter raw = some rd.regs := by
  unfold splitDb at h
  cases hcw : dbCoolWarm df with
  | none => simp [hcw] at h
  | some p =>
    obtain ⟨cs, ws⟩ := p
    simp only [hcw] at h
    cases hregens : dbRegens df with
    | none => simp [hregens] at h
    | some regens =>
      simp only [hregens] at h
      cases hregs : (dbRegsRaw df).bind temphold_filter with
      | none => simp [hregs] at h
      | some regs =>
        simp only [hregs, Option.some.injEq] at h
        subst h
        rcases Option.bind_eq_some.mp hregs with ⟨raw, hraw, hth⟩
        exact ⟨rfl, rfl, raw, hraw, hth⟩

/-- C2 (amended): a regen candidate `[s, e)` is accepted by `split_csv` iff
some `Current` in the slice exceeds 15 and the elapsed time from row `s` to
row `e` — the row at the next cut point, one past the slice — is strictly
between 3 and 5 hours; `split_db` instead measures between the slice's own
first and last rows (the `Current` half is identical in both); and every
regen phase either segmenter returns stems from a regen-start row whose
candidate slice passed that segmenter's own test. -/
theorem C2_regen_acceptance (log : Table) (s e : Nat) :
    (regenAcceptCsv log s e = true ↔
      ((∃ r ∈ pySlice log s e, 15 < r.current) ∧
        3 < (timeAt log e - timeAt log s) / 3600 ∧
        (timeAt log e - timeAt log s) / 3600 < 5)) ∧
    (regenAcceptDb log s e = true ↔
      ((∃ r ∈ pySlice log s e, 15 < r.current) ∧
        3 < durHours (pySlice log s e) ∧
        durHours (pySlice log s e) < 5)) ∧
    (∀ rc : CsvSplit, splitCsv log = some rc → ∀ ph ∈ rc.regens,
      ∃ s2 e2, s2 ∈ regenIndicies log ∧ nextCut (allIndicies log) s2 = some e2 ∧
        regenAcceptCsv log s2 e2 = true ∧
        rebaseHours (pySlice log s2 e2) = some ph) ∧
    (∀ rd : DbSplit, splitDb log = some rd → ∀ ph ∈ rd.regens,
      ∃ s2 e2, s2 ∈ regenIndicies log ∧ nextCut (allIndiciesDb log) s2 = some e2 ∧
        regenAcceptDb log s2 e2 = true ∧
        rebaseHours (pySlice log s2 e2) = some ph) := by
  refine ⟨?_, ?_, ?_, ?_⟩
  · simp [regenAcceptCsv, List.any_eq_true, and_assoc]
  · simp [regenAcceptDb, List.any_eq_true, and_assoc]
  · intro rc hc ph hp
    obtain ⟨-, hregens, -⟩ := splitCsv_inv hc
    unfold csvRegens at hregens
    obtain ⟨s2, e2, hs2, hnc2, hacc2, hpost2⟩ := buildPhases_mem hregens hp
    exact ⟨s2, e2, hs2, hnc2, hacc2, hpost2⟩
  · intro rd hd ph hp
    obtain ⟨-, hregens, -⟩ := splitDb_inv hd
    unfold dbRegens at hregens
    obtain ⟨s2, e2, hs2, hnc2, hacc2, hpost2⟩ := buildPhases_mem hregens hp
    exact ⟨s2, e2, hs2, hnc2, hacc2, hpost2⟩

/-- C5 (amended): the reg acceptance test — shared verbatim by `split_csv`
and `split_db` — holds on a candidate slice iff not every `Current` is below
0.1 and no `Current` exceeds 2; the slice's end is the code's resolved next
cut point, which for `split_db` falls back to `s` itself whenever `s` occurs
twice in the merged cut list.  Every reg phase either segmenter returns
stems from a reg-start row whose candidate slice passed this shared test. -/
theorem C5_reg_acceptance (log : Table) (s e : Nat) :
    (regAccept log s e = true ↔
      (¬ ∀ r ∈ pySlice log s e, r.current < 0.1) ∧
      (¬ ∃ r ∈ pySlice log s e, 2 < r.current)) ∧
    (∀ rc : CsvSplit, splitCsv log = some rc → ∀ ph ∈ rc.regs,
      ∃ s2 e2, s2 ∈ regIndicies log ∧ nextCut (allIndicies log) s2 = some e2 ∧
        regAccept log s2 e2 = true) ∧
    (∀ rd : DbSplit, splitDb log = some rd → ∀ ph ∈ rd.regs,
      ∃ s2 e2, s2 ∈ regIndicies log ∧ nextCut (allIndiciesDb log) s2 = some e2 ∧
        regAccept log s2 e2 = true) := by
  refine ⟨?_, ?_, ?_⟩
  · simp [regAccept, List.all_eq_true, List.any_eq_true]
  · intro rc hc ph hp
    obtain ⟨-, -, raw, hraw, hth⟩ := splitCsv_inv hc
    obtain ⟨reg, hreg, -⟩ := temphold_mem hth hp
    unfold csvRegsRaw at hraw
    obtain ⟨s2, e2, hs2, hnc2, hacc2, -⟩ := buildPhases_mem hraw hreg
    exact ⟨s2, e2, hs2, hnc2, hacc2⟩
  · intro rd hd ph hp
    obtain ⟨-, -, raw, hraw, hth⟩ := splitDb_inv hd
    obtain ⟨reg, hreg, -⟩ := temphold_mem hth hp
    unfold dbRegsRaw at hraw
    obtain ⟨s2, e2, hs2, hnc2, hacc2, -⟩ := buildPhases_mem hraw hreg
    exact ⟨s2, e2, hs2, hnc2, hacc2⟩

theorem csvCoolWarm_inv {log : Table} {cd wu : Table}
    (h : csvCoolWarm log = some (cd, wu)) :
    (∃ c1, (allIndicies log).get? 1 = some c1 ∧
      rebaseHours (pySlice log ((allIndicies log).headD 0) c1) = some cd) ∧
    rebaseHours
      (pySlice log ((allIndicies log).getD ((allIndicies log).length - 2) 0)
        ((allIndicies log).getD ((allIndicies log).length - 1) 0)) = some wu := by
  unfold csvCoolWarm at h
  cases hg : (allIndicies log).get? 1 with
  | none =>
    simp only [hg] at h
    exact Option.noConfusion h
  | some c1 =>
    simp only [hg] at h
    cases h1 : rebaseHours (pySlice log ((allIndicies log).headD 0) c1) with
    | none =>
      simp only [h1] at h
      exact Option.noConfusion h
    | some cd2 =>
      cases h2 : rebaseHours
          (pySlice log ((allIndicies log).getD ((allIndicies log).length - 2) 0)
            ((allIndicies log).getD ((allIndicies log).length - 1) 0)) with
      | none =>
        simp only [h1, h2] at h
        exact Option.noConfusion h
      | some wu2 =>
        simp only [h1, h2, Option.some.injEq, Prod.mk.injEq] at h
        obtain ⟨rfl, rfl⟩ := h
        exact ⟨⟨c1, rfl, h1⟩, rfl⟩

/-- C1 (amended): every phase accepted by `split_csv` — the cooldown, the
warmup, each regen and each reg — has first-row `Hours` exactly 0, and so
does every regen and reg phase accepted by `split_db`; the cooldown and
warmup phases of `split_db`, by contrast, are never rebased. -/
theorem C1_first_row_hours (log df : Table) (rc : CsvSplit) (rd : DbSplit)
    (hc : splitCsv log = some rc) (hd : splitDb df = some rd) :
    (rc.cooldown.headD default).hours = 0 ∧
    (rc.warmup.headD default).hours = 0 ∧
    (∀ ph ∈ rc.regens, (ph.headD default).hours = 0) ∧
    (∀ ph ∈ rc.regs, (ph.headD default).hours = 0) ∧
    (∀ ph ∈ rd.regens, (ph.headD default).hours = 0) ∧
    (∀ ph ∈ rd.regs, (ph.headD default).hours = 0) := by
  obtain ⟨hcw, hregens, raw, hraw, hth⟩ := splitCsv_inv hc
  obtain ⟨hcwd, hregensd, rawd, hrawd, hthd⟩ := splitDb_inv hd
  obtain ⟨⟨c1, _, hcd⟩, hwu⟩ := csvCoolWarm_inv hcw
  refine ⟨rebaseHours_head_hours hcd, rebaseHours_head_hours hwu, ?_, ?_, ?_, ?_⟩
  · intro ph hp
    unfold csvRegens at hregens
    obtain ⟨s, e, _, _, _, hpost⟩ := buildPhases_mem hregens hp
    exact rebaseHours_head_hours hpost
  · intro ph hp
    obtain ⟨reg, _, hreb⟩ := temphold_mem hth hp
    exact rebaseHours_head_hours hreb
  · intro ph hp
    unfold dbRegens at hregensd
    obtain ⟨s, e, _, _, _, hpost⟩ := buildPhases_mem hregensd hp
    exact rebaseHours_head_hours hpost
  · intro ph hp
    obtain ⟨reg, _, hreb⟩ := temphold_mem hthd hp
    exact rebaseHours_head_hours hreb

theorem C1_first_row_hours_witness :
    ((((splitCsv wCsvTable).getD default).cooldown.headD default).hours = 0 ∧
     (((splitCsv wCsvTable).getD default).warmup.headD default).hours = 0 ∧
     (∀ ph ∈ ((splitCsv wCsvTable).getD default).regens,
        (ph.headD default).hours = 0) ∧
     (∀ ph ∈ ((splitCsv wCsvTable).getD default).regs,
        (ph.headD default).hours = 0) ∧
     (∀ ph ∈ ((splitDb wDbTable).getD default).regens,
        (ph.headD default).hours = 0) ∧
     (∀ ph ∈ ((splitDb wDbTable).getD default).regs,
        (ph.headD default).hours = 0)) :=
  C1_first_row_hours wCsvTable wDbTable ((splitCsv wCsvTable).getD default)
    ((splitDb wDbTable).getD default)
    (by with_unfolding_all decide) (by with_unfolding_all decide)

/-- C3 (amended): when the hold filter (`Current > 0.085`) removes every row
of some phase in the collection, `temphold_filter` raises an
`IndexError`-equivalent (the `Hours` rebase reads row 0 of the now-empty
frame) instead of returning that phase as an empty table. -/
theorem C3_all_rows_removed_errors (regs : List Table) (reg : Table)
    (h1 : reg ∈ regs) (h2 : ∀ r ∈ reg, ¬ (0.085 < r.current)) :
    temphold_filter regs = none := by
  apply temphold_none h1
  rw [List.filter_eq_nil_iff]
  intro r hr
  simpa using h2 r hr

theorem C3_all_rows_removed_errors_witness :
    temphold_filter [[c3lowRow]] = none :=
  C3_all_rows_removed_errors [[c3lowRow]] [c3lowRow]
    (by simp) (by with_unfolding_all decide)

theorem replace50_length (t : Table) : (replace50 t).length = t.length := by
  simp [replace50]

theorem replace50_getD (t : Table) (i : Nat) (hi : i < t.length) :
    (replace50 t).getD i default =
      (if (t.getD i default).t50mK = some 0
       then { t.getD i default with t50mK := none } else t.getD i default) := by
  induction t generalizing i with
  | nil => simp at hi
  | cons a rest ih =>
    cases i with
    | zero => simp [replace50, List.getD_cons_zero]
    | succ n =>
      have hn : n < rest.length := by simpa using hi
      simpa [replace50, List.getD_cons_succ] using ih n hn

/-- C7 (confirmed): within every accepted reg phase (of either segmenter),
no 50mK reading equal to exactly 0 survives — it is replaced by the missing
marker — and the replacement step `replace50` changes nothing else: row
count is preserved and every row whose 50mK is not exactly 0 is returned
unchanged (all channels), while a row with 50mK = 0 changes only that field. -/
theorem C7_reg_50mK_replacement (log df : Table) (rc : CsvSplit) (rd : DbSplit)
    (hc : splitCsv log = some rc) (hd : splitDb df = some rd) :
    (∀ ph ∈ rc.regs, ∀ r ∈ ph, r.t50mK ≠ some 0) ∧
    (∀ ph ∈ rd.regs, ∀ r ∈ ph, r.t50mK ≠ some 0) ∧
    (∀ t : Table, (replace50 t).length = t.length ∧
      ∀ i : Nat, i < t.length →
        (replace50 t).getD i default =
          (if (t.getD i default).t50mK = some 0
           then { t.getD i default with t50mK := none }
           else t.getD i default)) := by
  obtain ⟨-, -, raw, hraw, hth⟩ := splitCsv_inv hc
  obtain ⟨-, -, rawd, hrawd, hthd⟩ := splitDb_inv hd
  refine ⟨?_, ?_, fun t => ⟨replace50_length t, replace50_getD t⟩⟩
  · intro ph hp r hr
    obtain ⟨reg, hreg, hreb⟩ := temphold_mem hth hp
    unfold csvRegsRaw at hraw
    obtain ⟨s, e, _, _, _, hpost⟩ := buildPhases_mem hraw hreg
    obtain ⟨mid, hmid, hrepl⟩ := Option.map_eq_some'.mp hpost
    obtain ⟨r0, hr0, -, -, h50⟩ := rebaseHours_mem hreb hr
    rw [h50]
    exact replace50_mem_no_zero (hrepl ▸ List.mem_of_mem_filter hr0)
  · intro ph hp r hr
    obtain ⟨reg, hreg, hreb⟩ := temphold_mem hthd hp
    unfold dbRegsRaw at hrawd
    obtain ⟨s, e, _, _, _, hpost⟩ := buildPhases_mem hrawd hreg
    obtain ⟨mid, hmid, hrepl⟩ := Option.map_eq_some'.mp hpost
    obtain ⟨r0, hr0, -, -, h50⟩ := rebaseHours_mem hreb hr
    rw [h50]
    exact replace50_mem_no_zero (hrepl ▸ List.mem_of_mem_filter hr0)

theorem setHours_collapse (r : Row) (x y : ℚ) :
    ({ { r with hours := x } with hours := y } : Row) = { r with hours := y } :=
  rfl

theorem rebaseHours_filter_fix {reg cleaned : Table}
    (h : rebaseHours (reg.filter fun r => decide (0.085 < r.current)) = some cleaned) :
    cleaned.filter (fun r => decide (0.085 < r.current)) = cleaned ∧
    rebaseHours cleaned = some cleaned := by
  cases hf : reg.filter fun r => decide (0.085 < r.current) with
  | nil => rw [hf] at h; simp [rebaseHours] at h
  | cons r0 rest =>
    rw [hf, rebaseHours_cons, Option.some.injEq] at h
    subst h
    have hall : ∀ c ∈ (r0 :: rest).map
        (fun r => { r with hours := (r.time - r0.time) / 3600 }),
        decide (0.085 < c.current) = true := by
      intro c hc
      rcases List.mem_map.mp hc with ⟨x, hx, rfl⟩
      have hx2 : x ∈ reg.filter (fun r => decide (0.085 < r.current)) := by
        rw [hf]; exact hx
      simpa using List.of_mem_filter hx2
    constructor
    · exact List.filter_eq_self.mpr hall
    · rw [List.map_cons, rebaseHours_cons, Option.some.injEq]
      conv_rhs => rw [← List.map_id
        (({ r0 with hours := (r0.time - r0.time) / 3600 } : Row) ::
          rest.map fun r => { r with hours := (r.time - r0.time) / 3600 })]
      apply List.map_congr_left
      intro x hx
      rcases List.mem_cons.mp hx with rfl | hx2
      · rfl
      · rcases List.mem_map.mp hx2 with ⟨r, hr, rfl⟩
        rfl

/-- C6 (confirmed): the hold cleaner is idempotent — applied to its own
successful output, `temphold_filter` removes no further rows and recomputes
the same `Hours` values, returning the output unchanged. -/
theorem C6_temphold_idempotent (regs out : List Table)
    (h : temphold_filter regs = some out) :
    temphold_filter out = some out := by
  induction regs generalizing out with
  | nil =>
    simp only [temphold_filter, Option.some.injEq] at h
    subst h
    rfl
  | cons a rest ih =>
    simp only [temphold_filter] at h
    cases h1 : rebaseHours (a.filter fun r => decide (0.085 < r.current)) with
    | none => simp [h1] at h
    | some cleaned =>
      simp only [h1] at h
      cases h2 : temphold_filter rest with
      | none => simp [h2] at h
      | some tail =>
        simp only [h2, Option.some.injEq] at h
        subst h
        obtain ⟨hfix, hreb⟩ := rebaseHours_filter_fix h1
        simp only [temphold_filter, hfix, hreb, ih tail h2]

theorem C6_temphold_idempotent_witness :
    temphold_filter ((temphold_filter [w6Reg]).getD []) =
      some ((temphold_filter [w6Reg]).getD []) :=
  C6_temphold_idempotent [w6Reg] ((temphold_filter [w6Reg]).getD [])
    (by with_unfolding_all decide)

theorem nextCut_max_none {l : List Nat} {m : Nat} (hl : l.Pairwise (· < ·))
    (hm : m ∈ l) (hmax : ∀ x ∈ l, x ≤ m) : nextCut l m = none := by
  induction l with
  | nil => cases hm
  | cons a rest ih =>
    rcases List.mem_cons.mp hm with rfl | h2
    · have hrest : rest = [] := by
        cases rest with
        | nil => rfl
        | cons b rbs =>
          have hab : m < b := (List.pairwise_cons.mp hl).1 b (List.mem_cons_self b rbs)
          have hbm : b ≤ m := hmax b (List.mem_cons_of_mem m (List.mem_cons_self b rbs))
          omega
      subst hrest
      simp [nextCut, listIndex]
    · have ham : a < m := (List.pairwise_cons.mp hl).1 m h2
      have ih2 := ih (List.pairwise_cons.mp hl).2 h2
        (fun x hx => hmax x (List.mem_cons_of_mem a hx))
      have hne : ¬ (a = m) := by omega
      simp only [nextCut] at ih2 ⊢
      simp only [listIndex, if_neg hne]
      cases hli : listIndex m rest with
      | none => simp [hli]
      | some i =>
        simp only [hli] at ih2
        simp only [hli, Option.map_some', Option.some_bind] at ih2 ⊢
        simpa [List.get?_cons_succ] using ih2

theorem mem_allIndicies_lt {t : Table} {i : Nat} (h : i ∈ allIndicies t) :
    i < t.length := by
  have := List.mem_filter.mp h
  simpa [List.mem_range] using this.1

theorem allIndicies_pairwise (t : Table) : (allIndicies t).Pairwise (· < ·) :=
  (List.pairwise_lt_range t.length).filter _

theorem last_mem_allIndicies {t : Table} (h : t ≠ []) :
    t.length - 1 ∈ allIndicies t := by
  apply List.mem_filter.mpr
  refine ⟨List.mem_range.mpr ?_, by simp [markForced]⟩
  have := List.length_pos.mpr h
  omega

theorem splitCsv_none_of_regens {log : Table} (h : csvRegens log = none) :
    splitCsv log = none := by
  cases log with
  | nil => rfl
  | cons a as =>
    unfold splitCsv
    cases hcw : csvCoolWarm (a :: as) with
    | none => rfl
    | some p =>
      obtain ⟨cd, wu⟩ := p
      simp only [hcw, h]

theorem splitCsv_none_of_regs {log : Table} (h : csvRegsRaw log = none) :
    splitCsv log = none := by
  cases log with
  | nil => rfl
  | cons a as =>
    unfold splitCsv
    cases hcw : csvCoolWarm (a :: as) with
    | none => rfl
    | some p =>
      obtain ⟨cd, wu⟩ := p
      simp only [hcw]
      cases hregens : csvRegens (a :: as) with
      | none => rfl
      | some regens => simp only [h, Option.none_bind]

/-- C9 (confirmed): if a regen-start or reg-start marker sits on the table's
final row — which is always the last cut point, so no cut point lies
strictly after it — `split_csv` fails with an `IndexError`-equivalent
(`none`) rather than silently dropping the candidate or returning a partial
result. -/
theorem C9_truncated_log_errors (log : Table) (hne : log ≠ [])
    (hm : isRegenMark ((log.getD (log.length - 1) default).notes) = true ∨
          isRegMark ((log.getD (log.length - 1) default).notes) = true) :
    splitCsv log = none := by
  have hnc : nextCut (allIndicies log) (log.length - 1) = none :=
    nextCut_max_none (allIndicies_pairwise log) (last_mem_allIndicies hne)
      (fun x hx => by have := mem_allIndicies_lt hx; omega)
  have hlen : 0 < log.length := List.length_pos.mpr hne
  rcases hm with hm | hm
  · apply splitCsv_none_of_regens
    unfold csvRegens
    apply buildPhases_none _ hnc
    exact List.mem_filter.mpr ⟨List.mem_range.mpr (by omega), by simpa using hm⟩
  · apply splitCsv_none_of_regs
    unfold csvRegsRaw
    apply buildPhases_none _ hnc
    exact List.mem_filter.mpr ⟨List.mem_range.mpr (by omega), by simpa using hm⟩

theorem C9_truncated_log_errors_witness : splitCsv w9Table = none :=
  C9_truncated_log_errors w9Table (by with_unfolding_all decide)
    (Or.inl (by with_unfolding_all decide))

/-- C10 (confirmed): `split_csv` on a table with fewer than two rows is an
error (`none`), never an empty result: the empty table fails at the forced
mask assignment, a one-row table fails at `allCuts[1]`, so any `some`
result — including one with empty accepted collections — implies at least
two rows. -/
theorem C10_short_table_errors (log : Table) (h : log.length < 2) :
    splitCsv log = none := by
  cases log with
  | nil => rfl
  | cons a rest =>
    cases rest with
    | nil =>
      have hcw : csvCoolWarm [a] = none := by
        have hcuts : allIndicies [a] = [0] := by
          have hm0 : markForced [a] 0 = true := by simp [markForced]
          have hr1 : List.range 1 = [0] := rfl
          simp [allIndicies, hr1, hm0]
        unfold csvCoolWarm
        rw [hcuts]
        rfl
      unfold splitCsv
      simp only [hcw]
    | cons b rest2 =>
      exfalso
      simp [List.length_cons] at h
      omega

theorem C10_short_table_errors_witness :
    splitCsv [mkRow 0 0 none 0 "" ""] = none :=
  C10_short_table_errors [mkRow 0 0 none 0 "" ""] (by with_unfolding_all decide)

theorem C7_reg_50mK_replacement_witness :
    ((∀ ph ∈ w7Result.regs, ∀ r ∈ ph, r.t50mK ≠ some 0) ∧
     (∀ ph ∈ ((splitDb wDbTable).getD default).regs, ∀ r ∈ ph, r.t50mK ≠ some 0) ∧
     (∀ t : Table, (replace50 t).length = t.length ∧
       ∀ i : Nat, i < t.length →
         (replace50 t).getD i default =
           (if (t.getD i default).t50mK = some 0
            then { t.getD i default with t50mK := none }
            else t.getD i default))) :=
  C7_reg_50mK_replacement w7Table wDbTable w7Result
    ((splitDb wDbTable).getD default)
    (by with_unfolding_all rfl) (by with_unfolding_all decide)

theorem pySlice_ne_nil {t : Table} {s e : Nat} (hse : s < e) (hs : s < t.length) :
    pySlice t s e ≠ [] := by
  apply List.length_pos.mp
  simp only [pySlice, List.length_take, List.length_drop]
  omega

theorem pySlice_length {t : Table} {s e : Nat} (he : e ≤ t.length) :
    (pySlice t s e).length = e - s := by
  simp only [pySlice, List.length_take, List.length_drop]
  omega

theorem filter_range_eq {n : Nat} {l : List Nat} {p : Nat → Bool}
    (hl : l.Pairwise (· < ·)) (hmem : ∀ i ∈ l, i < n)
    (hp : ∀ i, i < n → (p i = true ↔ i ∈ l)) :
    (List.range n).filter p = l := by
  haveI : IsAntisymm Nat (· < ·) :=
    ⟨fun a b h1 h2 => absurd h2 (Nat.lt_asymm h1)⟩
  apply List.eq_of_perm_of_sorted ?_ ((List.pairwise_lt_range n).filter p) hl
  apply (List.perm_ext_iff_of_nodup
      (((List.pairwise_lt_range n).filter p).nodup) hl.nodup).mpr
  intro i
  simp only [List.mem_filter, List.mem_range]
  constructor
  · rintro ⟨hin, hpi⟩
    exact (hp i hin).mp hpi
  · intro hi
    exact ⟨hmem i hi, (hp i (hmem i hi)).mpr hi⟩

theorem regAccept_exists_current {log : Table} {s e : Nat}
    (h : regAccept log s e = true) :
    ∃ r ∈ pySlice log s e, 0.1 ≤ r.current := by
  unfold regAccept at h
  rw [Bool.and_eq_true] at h
  have h1 := h.1
  rw [Bool.not_eq_true'] at h1
  rcases List.all_eq_false.mp h1 with ⟨r, hr, hrc⟩
  refine ⟨r, hr, ?_⟩
  simpa using hrc

theorem allIndicies_two_markers {log : Table} {m1 m2 : Nat}
    (hregen : regenIndicies log = [m1]) (hreg : regIndicies log = [m2])
    (h01 : 0 < m1) (h12 : m1 < m2) (h2n : m2 + 1 < log.length) :
    allIndicies log = [0, m1, m2, log.length - 1] := by
  have hr1 : ∀ i, i < log.length →
      (isRegenMark ((log.getD i default).notes) = true ↔ i = m1) := by
    intro i hi
    constructor
    · intro h
      have hmem : i ∈ regenIndicies log :=
        List.mem_filter.mpr ⟨List.mem_range.mpr hi, by simpa using h⟩
      rw [hregen] at hmem
      simpa using hmem
    · rintro rfl
      have hmem : i ∈ regenIndicies log := by
        rw [hregen]; exact List.mem_cons_self _ _
      simpa using (List.mem_filter.mp hmem).2
  have hr2 : ∀ i, i < log.length →
      (isRegMark ((log.getD i default).notes) = true ↔ i = m2) := by
    intro i hi
    constructor
    · intro h
      have hmem : i ∈ regIndicies log :=
        List.mem_filter.mpr ⟨List.mem_range.mpr hi, by simpa using h⟩
      rw [hreg] at hmem
      simpa using hmem
    · rintro rfl
      have hmem : i ∈ regIndicies log := by
        rw [hreg]; exact List.mem_cons_self _ _
      simpa using (List.mem_filter.mp hmem).2
  apply filter_range_eq
  · simp only [List.pairwise_cons, List.mem_cons, List.mem_singleton,
      List.not_mem_nil, or_false, forall_eq_or_imp, forall_eq,
      List.Pairwise.nil, and_true, false_implies, implies_true]
    omega
  · intro i hi
    simp only [List.mem_cons, List.mem_singleton, List.not_mem_nil, or_false] at hi
    rcases hi with rfl | rfl | rfl | rfl <;> omega
  · intro i hi
    simp only [markForced, isMark, Bool.or_eq_true, beq_iff_eq, hr1 i hi, hr2 i hi,
      List.mem_cons, List.mem_singleton, List.not_mem_nil, or_false]
    tauto

theorem splitCsv_build {log : Table} {cd wu : Table} {regens regs : List Table}
    (hne : log ≠ [])
    (hcw : csvCoolWarm log = some (cd, wu))
    (hr : csvRegens log = some regens)
    (hg : (csvRegsRaw log).bind temphold_filter = some regs) :
    splitCsv log = some ⟨cd, wu, regens, regs⟩ := by
  cases log with
  | nil => exact absurd rfl hne
  | cons a as =>
    unfold splitCsv
    simp only [hcw, hr, hg]

/-- C8 (amended): on a table whose markers yield exactly two marker-derived
cut points `m1 < m2`, both strictly inside the table, `split_csv` succeeds,
its cooldown is the rebased slice `[0, m1)` and its warmup is the rebased
slice `[m2, length - 1)` — the warmup stops one row short of the table's
final row, because the upper bound `allCuts[-1]` (the forced last-index cut)
is excluded by slicing. -/
theorem C8_coolwarm_slices (log : Table) (m1 m2 : Nat)
    (hregen : regenIndicies log = [m1]) (hreg : regIndicies log = [m2])
    (h01 : 0 < m1) (h12 : m1 < m2) (h2n : m2 + 1 < log.length) :
    (splitCsv log).map CsvSplit.cooldown = rebaseHours (pySlice log 0 m1) ∧
    (splitCsv log).map CsvSplit.warmup =
      rebaseHours (pySlice log m2 (log.length - 1)) ∧
    ((splitCsv log).map fun rc => rc.warmup.length) =
      some (log.length - 1 - m2) := by
  have hcuts : allIndicies log = [0, m1, m2, log.length - 1] :=
    allIndicies_two_markers hregen hreg h01 h12 h2n
  obtain ⟨cd, hcd⟩ :=
    rebaseHours_isSome (pySlice_ne_nil h01 (by omega) : pySlice log 0 m1 ≠ [])
  obtain ⟨wu, hwu⟩ := rebaseHours_isSome
    (pySlice_ne_nil (by omega) (by omega) : pySlice log m2 (log.length - 1) ≠ [])
  have hcw : csvCoolWarm log = some (cd, wu) := by
    unfold csvCoolWarm
    rw [hcuts]
    simp only [List.get?_cons_succ, List.get?_cons_zero, List.headD_cons,
      List.length_cons, List.length_nil]
    norm_num
    simp only [List.getD_cons_succ, List.getD_cons_zero, hcd, hwu]
  have h0m1 : ¬ ((0 : Nat) = m1) := by omega
  have h0m2 : ¬ ((0 : Nat) = m2) := by omega
  have hm1m2 : ¬ (m1 = m2) := by omega
  have hnext1 : nextCut [0, m1, m2, log.length - 1] m1 = some m2 := by
    simp [nextCut, listIndex, h0m1]
  have hnext2 : nextCut [0, m1, m2, log.length - 1] m2 = some (log.length - 1) := by
    simp [nextCut, listIndex, h0m2, hm1m2]
  obtain ⟨regens, hregensEq⟩ : ∃ x, csvRegens log = some x := by
    unfold csvRegens
    rw [hcuts, hregen]
    simp only [buildPhases, hnext1]
    by_cases hacc : regenAcceptCsv log m1 m2 = true
    · obtain ⟨ph, hph⟩ :=
        rebaseHours_isSome (pySlice_ne_nil h12 (by omega) : pySlice log m1 m2 ≠ [])
      rw [if_pos hacc, hph]
      exact ⟨[ph], rfl⟩
    · rw [if_neg hacc]
      exact ⟨[], rfl⟩
  obtain ⟨regs, hregsEq⟩ : ∃ y, (csvRegsRaw log).bind temphold_filter = some y := by
    unfold csvRegsRaw
    rw [hcuts, hreg]
    simp only [buildPhases, hnext2]
    by_cases hacc : regAccept log m2 (log.length - 1) = true
    · obtain ⟨mid, hmid⟩ := rebaseHours_isSome
        (pySlice_ne_nil (by omega) (by omega) : pySlice log m2 (log.length - 1) ≠ [])
      rw [if_pos hacc, hmid]
      obtain ⟨r, hr, hrc⟩ := regAccept_exists_current hacc
      obtain ⟨r1, hr1, -, hc1, -⟩ := rebaseHours_mem_rev hmid hr
      obtain ⟨r2, hr2, hc2⟩ := replace50_mem_rev hr1
      have hsurv : (replace50 mid).filter (fun x => decide (0.085 < x.current)) ≠ [] := by
        apply List.ne_nil_of_mem
        refine List.mem_filter.mpr ⟨hr2, ?_⟩
        rw [hc2, hc1]
        simp only [decide_eq_true_eq]
        linarith
      obtain ⟨cl, hcl⟩ := rebaseHours_isSome hsurv
      refine ⟨[cl], ?_⟩
      simp only [Option.map_some', Option.some_bind, temphold_filter, hcl]
    · rw [if_neg hacc]
      exact ⟨[], rfl⟩
  have hne : log ≠ [] := by
    intro hnil
    rw [hnil] at h2n
    simp at h2n
  have hsplit : splitCsv log = some ⟨cd, wu, regens, regs⟩ :=
    splitCsv_build hne hcw hregensEq hregsEq
  rw [hsplit]
  refine ⟨by simpa using hcd.symm, by simpa using hwu.symm, ?_⟩
  simp only [Option.map_some', Option.some.injEq]
  rw [rebaseHours_length hwu,
    pySlice_length (show log.length - 1 ≤ log.length by omega)]

theorem C8_coolwarm_slices_witness :
    ((splitCsv c8Table).map CsvSplit.cooldown = rebaseHours (pySlice c8Table 0 1) ∧
     (splitCsv c8Table).map CsvSplit.warmup =
       rebaseHours (pySlice c8Table 3 (c8Table.length - 1)) ∧
     ((splitCsv c8Table).map fun rc => rc.warmup.length) =
       some (c8Table.length - 1 - 3)) :=
  C8_coolwarm_slices c8Table 1 3 (by with_unfolding_all decide)
    (by with_unfolding_all decide) (by with_unfolding_all decide)
    (by with_unfolding_all decide) (by with_unfolding_all decide)
